import Mathlib

/-!
Shallow embedding of the `stackalloc` crate (`src/lib.rs`) and verification
of its specification claims.

Machine integers (`usize`) are embedded as `Nat`; where overflow matters the
64-bit width is made explicit through `USIZE = 2 ^ 64` and `Option`-valued
checked variants (`none` models the debug-build overflow panic).  Unwinding
(`panic` / `catch_unwind` / `resume_unwind`) is embedded as `Except ε`,
where `ε` is the type of panic payloads: a computation that unwinds is one
that produces `Except.error payload`.  Byte regions are embedded as
`List Nat` (one entry per byte), and pointers into a region as `Nat`
addresses.
-/

namespace Stackalloc

/-- Width bound of `usize` on the 64-bit targets the crate is built for. -/
def USIZE : Nat := 2 ^ 64

/-- Embeds `helpers::align_buffer_to::<T>(ptr)` from `src/lib.rs`:
`((ptr as usize) + align_of::<T>() - (ptr as usize) % align_of::<T>()) as *mut T`.
The address `ptr` is the `Nat` `p`, and `align_of::<T>()` is the parameter
`alT`.  This is the ideal (non-wrapping) arithmetic; the checked variant
below makes the possible `usize` overflow of `p + alT` explicit. -/
def align_buffer_to (alT p : Nat) : Nat :=
  p + alT - p % alT

/-- The same arithmetic as `align_buffer_to` with the `usize` overflow of
`(ptr as usize) + align_of::<T>()` made explicit: Rust debug builds panic on
overflow, modelled as `none`.  (The subtraction can never underflow since
`p % alT ≤ p`.) -/
def align_buffer_to_checked (alT p : Nat) : Option Nat :=
  if p + alT < USIZE then some (p + alT - p % alT) else none

/-- Embeds the byte-count computation of `stackalloc_uninit`:
`let size_bytes = (core::mem::size_of::<T>() * size) + core::mem::align_of::<T>();`
with `size_of::<T>()` as `szT`, `align_of::<T>()` as `alT` and `size` as
`count` (ideal arithmetic). -/
def stackalloc_uninit_size_bytes (szT alT count : Nat) : Nat :=
  szT * count + alT

/-- The same byte-count computation with `usize` overflow made explicit
(`none` models the debug-build overflow panic / release wraparound). -/
def size_bytes_checked (szT alT count : Nat) : Option Nat :=
  if stackalloc_uninit_size_bytes szT alT count < USIZE then
    some (stackalloc_uninit_size_bytes szT alT count)
  else none

/-- The element view `slice::from_raw_parts_mut(abuf, size)` that
`stackalloc_uninit` hands to its callback, as a pair of its base address and
its element count, for a byte region starting at address `p`. -/
def stackalloc_uninit_view (alT count p : Nat) : Nat × Nat :=
  (align_buffer_to alT p, count)

/-- The condition of the `debug_assert!` in `stackalloc_uninit`:
`buf.as_ptr_range().contains(&(abuf as *const _))`, i.e. the aligned pointer
lies in the half-open range `[p, p + size_bytes)` of the byte region. -/
def stackalloc_uninit_assert (szT alT count p : Nat) : Bool :=
  decide (p ≤ align_buffer_to alT p) &&
  decide (align_buffer_to alT p < p + stackalloc_uninit_size_bytes szT alT count)

/-- Model of `std::panic::catch_unwind`: running the closure either returns
normally (`Except.ok`) or unwinds with a payload (`Except.error`), and
`catch_unwind` surfaces this as a `Result`, which `Except` is. -/
def catch_unwind (f : Unit → Except ε T) : Except ε T := f ()

/-- Model of `std::panic::resume_unwind(payload)`: re-raises the captured
payload; it never produces a normal value, so its result is always the
unwind `payload` itself. -/
def resume_unwind (p : ε) : Except ε T := Except.error p

/-- Embeds `alloca(size, callback)` from `src/lib.rs`.  `mem` is the byte
region the FFI extender hands to the trampoline (`allocad_ptr`); inside the
trampoline the slice is reconstructed as
`slice::from_raw_parts_mut(allocad_ptr as *mut MaybeUninit<u8>, size)`
(modelled by `mem.take size`; the extender always provides `size` bytes, so
`mem.length = size` in every real run), the callback runs under
`catch_unwind` and its outcome is stored into the `rval` slot; after the
extender returns, `Ok` is returned and `Err` is re-raised via
`resume_unwind`. -/
def alloca (size : Nat) (mem : List Nat) (callback : List Nat → Except ε T) :
    Except ε T :=
  let slice := mem.take size
  let rval := catch_unwind fun _ => callback slice
  match rval with
  | Except.ok v => Except.ok v
  | Except.error p => resume_unwind p

/-- Embeds `ptr::write_bytes(buf.as_mut_ptr(), 0, buf.len())` in
`alloca_zeroed`: every byte of the buffer is overwritten with `0`. -/
def write_bytes_zero (buf : List Nat) : List Nat :=
  List.replicate buf.length 0

/-- Embeds `alloca_zeroed(size, callback)` from `src/lib.rs`: delegates to
`alloca`, zeroes the byte region, and hands the zeroed (now initialised)
slice to the callback.  No drop code exists in the source function (`u8`
needs no destruction). -/
def alloca_zeroed (size : Nat) (mem : List Nat)
    (callback : List Nat → Except ε T) : Except ε T :=
  alloca size mem fun buf => callback (write_bytes_zero buf)

/-- Embeds the fill loop of `stackalloc_with_iter`:
`for (d, s) in buf.iter_mut().zip(iter) { *d = MaybeUninit::new(s); done += 1; }`
over a buffer of `n` slots and the sequence `xs` the iterator yields.
Returns the initialised prefix (the first `done` slots, in yield order) and
the part of the sequence left undrained (`Iterator::zip` stops pulling from
the second iterator once the first is exhausted). -/
def fill_from_iter : Nat → List α → List α × List α
  | 0, xs => ([], xs)
  | _ + 1, [] => ([], [])
  | n + 1, x :: xs =>
      let r := fill_from_iter n xs
      (x :: r.1, r.2)

/-- Embeds `stackalloc_with_iter(size, iter, callback)` from `src/lib.rs`
over an already-materialised sequence `xs`, additionally counting how many
times `T`'s destructor runs.  The filled prefix `buf[..done]` is passed to
the callback; on a normal return `ptr::drop_in_place(buf)` runs (guarded by
`mem::needs_drop::<T>()`), dropping each filled slot once; if the callback
unwinds, control leaves the closure before `drop_in_place`, so no destructor
runs and the payload propagates. -/
def stackalloc_with_iter (n : Nat) (xs : List α)
    (callback : List α → Except ε U) (needsDrop : Bool) : Except ε U × Nat :=
  let buf := (fill_from_iter n xs).1
  match callback buf with
  | Except.ok r => (Except.ok r, if needsDrop then buf.length else 0)
  | Except.error e => (Except.error e, 0)

/-- Embeds `buf.fill_with(move || MaybeUninit::new(init_with()))` in
`stackalloc_with`, with the `FnMut` closure `init_with` modelled as a
function of its call index and allowed to unwind: slots are filled in
order; an unwind while producing slot `j` leaves the first `j` slots filled
(inside `MaybeUninit`, so they are not dropped) and propagates. -/
def fill_with_go (initWith : Nat → Except ε α) : Nat → Nat → Except ε (List α)
  | _, 0 => Except.ok []
  | i, n + 1 =>
      match initWith i with
      | Except.error e => Except.error e
      | Except.ok x =>
          match fill_with_go initWith (i + 1) n with
          | Except.error e => Except.error e
          | Except.ok rest => Except.ok (x :: rest)

/-- The whole `fill_with` call of `stackalloc_with`: fill `n` slots starting
from call index `0`. -/
def fill_with (n : Nat) (initWith : Nat → Except ε α) : Except ε (List α) :=
  fill_with_go initWith 0 n

/-- Embeds `stackalloc_with(size, init_with, callback)` from `src/lib.rs`,
counting destructor runs as in `stackalloc_with_iter`: the buffer is filled
by `init_with` (an unwind there propagates with nothing dropped), the filled
buffer is passed to the callback, and `ptr::drop_in_place(buf)` runs only on
a normal return of the callback. -/
def stackalloc_with (n : Nat) (initWith : Nat → Except ε α)
    (callback : List α → Except ε U) (needsDrop : Bool) : Except ε U × Nat :=
  match fill_with n initWith with
  | Except.error e => (Except.error e, 0)
  | Except.ok buf =>
      match callback buf with
      | Except.ok r => (Except.ok r, if needsDrop then buf.length else 0)
      | Except.error e => (Except.error e, 0)

/-! ### Helper lemmas about the alignment arithmetic -/

/-- `align_buffer_to` produces the multiple of `alT` one strictly above
`p`'s own multiple: `alT * (p / alT + 1)`. -/
theorem align_buffer_to_eq_mul (alT p : Nat) (h : 0 < alT) :
    align_buffer_to alT p = alT * (p / alT + 1) := by
  have hdm := Nat.div_add_mod p alT
  have hlt := Nat.mod_lt p h
  have hexp : alT * (p / alT + 1) = alT * (p / alT) + alT := by ring
  unfold align_buffer_to
  omega

/-- The address produced by `align_buffer_to` is a multiple of the
alignment. -/
theorem align_buffer_to_mod (alT p : Nat) (h : 0 < alT) :
    align_buffer_to alT p % alT = 0 := by
  rw [align_buffer_to_eq_mul alT p h]
  exact Nat.mul_mod_right alT _

/-! ### Claims about the alignment and size arithmetic -/

/-- Claim C4 counterexample: for alignment 4 and an already 4-aligned base
address 8, `align_buffer_to` yields 12, not the base 8 itself, refuting the
claim that the located address equals `p` when `p` is already aligned. -/
theorem align_buffer_to_shifts_aligned_base :
    align_buffer_to 4 8 = 12 ∧ align_buffer_to 4 8 ≠ 8 := by decide

/-- Claim C4 (amended): `align_buffer_to` yields the first address STRICTLY
AFTER `p` that is a multiple of the alignment (never `p` itself): it is a
multiple of `alT`, lies in `(p, p + alT]`, equals `p + alT` exactly when `p`
is already aligned, and is the least aligned address strictly above `p`. -/
theorem align_buffer_to_least_multiple_strictly_above (alT p : Nat)
    (h : 0 < alT) :
    align_buffer_to alT p % alT = 0 ∧
    p < align_buffer_to alT p ∧
    align_buffer_to alT p ≤ p + alT ∧
    (p % alT = 0 → align_buffer_to alT p = p + alT) ∧
    ∀ q, p < q → q % alT = 0 → align_buffer_to alT p ≤ q := by
  refine ⟨align_buffer_to_mod alT p h, ?_, ?_, ?_, ?_⟩
  · have := Nat.mod_lt p h
    unfold align_buffer_to
    omega
  · unfold align_buffer_to
    omega
  · intro h0
    unfold align_buffer_to
    omega
  · intro q hpq hq
    obtain ⟨m, hm⟩ := Nat.dvd_of_mod_eq_zero hq
    have hdm := Nat.div_add_mod p alT
    have hlt := Nat.mod_lt p h
    have hdiv : p / alT + 1 ≤ m := by
      by_contra hc

      push_neg at hc
      have hmle : m ≤ p / alT := by omega
      have : alT * m ≤ alT * (p / alT) := Nat.mul_le_mul_left alT hmle
      omega
    rw [align_buffer_to_eq_mul alT p h, hm]
    exact Nat.mul_le_mul_left alT hdiv

/-- Claim C4 witness: at alignment 4 and base 7 the theorem applies and the
located address is 4-aligned. -/
theorem align_buffer_to_least_multiple_strictly_above_witness :
    align_buffer_to 4 7 % 4 = 0 :=
  (align_buffer_to_least_multiple_strictly_above 4 7 (by decide)).1

/-- Claim C3: evaluation of the `debug_assert!` condition of
`stackalloc_uninit` at the failing input `T = u8` (`size_of = 1`,
`align_of = 1`), `count = 0`, region base `p = 0`: the located aligned
address is `p + 1`, one past the end of the 1-byte region, so
`buf.as_ptr_range().contains(&abuf)` is `false` and the assertion fails,
refuting the claim that it never does. -/
theorem stackalloc_uninit_assert_fails_at_zero_count :
    stackalloc_uninit_assert 1 1 0 0 = false := by decide

/-- Claim C7: the base address of the element view handed to the callback
by `stackalloc_uninit` (and hence by every initialization strategy built on
it) is always a multiple of `align_of::<T>()`, for every count and byte
region base address. -/
theorem stackalloc_uninit_view_base_aligned (alT count p : Nat)
    (h : 0 < alT) :
    (stackalloc_uninit_view alT count p).1 % alT = 0 :=
  align_buffer_to_mod alT p h

/-- Claim C7 witness: for alignment 8, count 5 and base address 3 the view
base is 8-aligned. -/
theorem stackalloc_uninit_view_base_aligned_witness :
    (stackalloc_uninit_view 8 5 3).1 % 8 = 0 :=
  stackalloc_uninit_view_base_aligned 8 5 3 (by decide)

/-- Claim C10: the end of the aligned element window never exceeds the end
of the allocated byte region:
`align_buffer_to(p) + count * size_of(T) ≤ p + (size_of(T) * count + align_of(T))`,
so the `count`-element slice built by `stackalloc_uninit` never extends past
the bytes actually allocated. -/
theorem aligned_window_within_region (szT alT count p : Nat) :
    align_buffer_to alT p + count * szT ≤
      p + stackalloc_uninit_size_bytes szT alT count := by
  have hm := Nat.mod_le p alT
  have hc : count * szT = szT * count := Nat.mul_comm count szT
  unfold align_buffer_to stackalloc_uninit_size_bytes
  omega

/-- Claim C6: `stackalloc_uninit` requests exactly
`size_of(T) * count + align_of(T)` bytes from `alloca` (whenever that
computation does not overflow `usize`) and the element view it hands the
callback has exactly `count` slots. -/
theorem stackalloc_uninit_requests_exact_bytes_and_slots
    (szT alT count p : Nat)
    (h : stackalloc_uninit_size_bytes szT alT count < USIZE) :
    size_bytes_checked szT alT count = some (szT * count + alT) ∧
    (stackalloc_uninit_view alT count p).2 = count := by
  unfold size_bytes_checked
  rw [if_pos h]
  exact ⟨rfl, rfl⟩

/-- Claim C6 witness: for `size_of(T) = 4`, `align_of(T) = 8`,
`count = 10`, base 0, the byte request is 48 and the view has 10 slots. -/
theorem stackalloc_uninit_requests_exact_bytes_and_slots_witness :
    size_bytes_checked 4 8 10 = some 48 ∧
    (stackalloc_uninit_view 8 10 0).2 = 10 := by
  have h := stackalloc_uninit_requests_exact_bytes_and_slots 4 8 10 0
    (by norm_num [stackalloc_uninit_size_bytes, USIZE])
  simpa using h

/-- Claim C5 counterexample: for `size_of(T) = 1`, `align_of(T) = 1` and
`count = 2 ^ 64 - 1`, the byte-count computation
`size_of(T) * count + align_of(T)` overflows `usize` (panics in a debug
build, wraps in release), refuting the claim that the arithmetic succeeds
for all count values. -/
theorem size_bytes_overflows_at_max_count :
    size_bytes_checked 1 1 (2 ^ 64 - 1) = none := by
  norm_num [size_bytes_checked, stackalloc_uninit_size_bytes, USIZE]

/-- Claim C5 (amended): the size and aligned-address computations of the
typed overlay succeed without `usize` overflow or wraparound whenever
`size_of(T) * count + align_of(T)` fits in `usize` (and, for the alignment
step, the region's base plus the alignment fits, which holds for any region
actually addressable in memory). -/
theorem size_and_align_arithmetic_ok_without_overflow (szT alT count p : Nat)
    (h1 : szT * count + alT < USIZE) (h2 : p + alT < USIZE) :
    size_bytes_checked szT alT count = some (szT * count + alT) ∧
    align_buffer_to_checked alT p = some (align_buffer_to alT p) := by
  unfold size_bytes_checked align_buffer_to_checked align_buffer_to
    stackalloc_uninit_size_bytes
  rw [if_pos h1, if_pos h2]
  exact ⟨rfl, rfl⟩

/-- Claim C5 witness: for `size_of(T) = 1`, `align_of(T) = 1`, `count = 3`
and base 10, both computations succeed. -/
theorem size_and_align_arithmetic_ok_without_overflow_witness :
    size_bytes_checked 1 1 3 = some 4 := by
  have h := (size_and_align_arithmetic_ok_without_overflow 1 1 3 10
    (by norm_num [USIZE]) (by norm_num [USIZE])).1
  simpa using h

/-! ### Claims about the orchestrator and the initialization strategies -/

/-- Claim C1: if the callback returns normally with value `v`, `alloca`
returns `v`; if the callback unwinds with payload `p`, the payload is
captured inside the trampoline and, after the stack-extension call returns,
re-raised unchanged to the caller, so the caller observes the original
abnormal termination and never a fabricated result. -/
theorem alloca_returns_value_and_reraises_unwind (size : Nat)
    (mem : List Nat) (cb : List Nat → Except ε T) (h : mem.length = size) :
    (∀ v, cb mem = Except.ok v → alloca size mem cb = Except.ok v) ∧
    (∀ p, cb mem = Except.error p → alloca size mem cb = Except.error p) := by
  have hm : mem.take size = mem := by
    rw [← h]
    simp
  constructor
  · intro v hv
    simp [alloca, catch_unwind, resume_unwind, hm, hv]
  · intro p hp
    simp [alloca, catch_unwind, resume_unwind, hm, hp]

/-- Claim C1 witness: a concrete callback's normal result is returned
unchanged by `alloca`. -/
theorem alloca_returns_value_and_reraises_unwind_witness :
    alloca 2 [5, 6] (fun b => (Except.ok b.length : Except Unit Nat)) =
      Except.ok 2 :=
  (alloca_returns_value_and_reraises_unwind 2 [5, 6]
    (fun b => (Except.ok b.length : Except Unit Nat)) rfl).1 2 rfl

/-- Claim C8: for every requested length `n`, `alloca_zeroed` hands the
callback a byte slice of length exactly `n` in which every byte is `0` at
callback entry (and the source function contains no destruction step: bytes
are not destructible). -/
theorem alloca_zeroed_hands_zeroed_slice (n : Nat) (mem : List Nat)
    (cb : List Nat → Except ε T) (h : mem.length = n) :
    alloca_zeroed n mem cb = cb (List.replicate n 0) ∧
    (List.replicate (α := Nat) n 0).length = n ∧
    ∀ b ∈ List.replicate (α := Nat) n 0, b = 0 := by
  have hlen : (mem.take n).length = n := by simp [h]
  refine ⟨?_, by simp, ?_⟩
  · simp only [alloca_zeroed, alloca, catch_unwind, resume_unwind,
      write_bytes_zero]
    rw [hlen]
    cases hcb : cb (List.replicate n 0) <;> simp [hcb]
  · intro b hb
    exact List.eq_of_mem_replicate hb

/-- Claim C8 witness: a 2-byte region holding leftover data 7, 9 is handed
to the callback as `[0, 0]`. -/
theorem alloca_zeroed_hands_zeroed_slice_witness :
    alloca_zeroed 2 [7, 9] (fun b => (Except.ok b : Except Unit (List Nat))) =
      Except.ok [0, 0] := by
  have h := (alloca_zeroed_hands_zeroed_slice 2 [7, 9]
    (fun b => (Except.ok b : Except Unit (List Nat))) rfl).1
  rw [h]
  rfl

/-- The fill loop of `stackalloc_with_iter` writes exactly the first
`min n m` yielded elements and leaves the rest of the sequence undrained. -/
theorem fill_from_iter_eq (n : Nat) (xs : List α) :
    fill_from_iter n xs = (xs.take n, xs.drop n) := by
  induction n generalizing xs with
  | zero => simp [fill_from_iter]
  | succ n ih =>
    cases xs with
    | nil => simp [fill_from_iter]
    | cons x xs => simp [fill_from_iter, ih]

/-- Claim C9: `stackalloc_with_iter` pulls at most `n` elements from the
iterator; the slice handed to the callback is exactly the first
`min m n` yielded elements in yield order (so of length `m` when `m < n`);
and the remaining `m - n` elements are left undrained when `m > n`. -/
theorem stackalloc_with_iter_takes_bounded_prefix (n : Nat) (xs : List α) :
    (fill_from_iter n xs).1 = xs.take n ∧
    (fill_from_iter n xs).1.length = min xs.length n ∧
    (fill_from_iter n xs).2 = xs.drop n ∧
    (fill_from_iter n xs).2.length = xs.length - n ∧
    ∀ (cb : List α → Except ε U) (d : Bool),
      (stackalloc_with_iter n xs cb d).1 = cb (xs.take n) := by
  have hf := fill_from_iter_eq n xs
  refine ⟨by rw [hf], ?_, by rw [hf], ?_, ?_⟩
  · rw [hf]
    simp [List.length_take, Nat.min_comm]
  · rw [hf]
    simp
  · intro cb d
    simp only [stackalloc_with_iter, hf]
    cases hcb : cb (xs.take n) <;> simp [hcb]

/-- A successful `fill_with` run fills exactly `n` slots. -/
theorem fill_with_go_length (initWith : Nat → Except ε α) (i n : Nat)
    (buf : List α) (h : fill_with_go initWith i n = Except.ok buf) :
    buf.length = n := by
  induction n generalizing i buf with
  | zero =>
    simp only [fill_with_go] at h
    cases h
    rfl
  | succ n ih =>
    simp only [fill_with_go] at h
    cases hi : initWith i with
    | error e => rw [hi] at h; exact absurd h (by simp)
    | ok x =>
      rw [hi] at h
      cases hr : fill_with_go initWith (i + 1) n with
      | error e => rw [hr] at h; exact absurd h (by simp)
      | ok rest =>
        rw [hr] at h
        cases h
        simp [ih (i + 1) rest hr]

/-- Claim C2 counterexample: `stackalloc_with_iter` with `count = 2` over an
iterator yielding one element fills `j = 1` slot; when the callback unwinds,
the destructor of the filled slot runs 0 times, not `j = 1` times as the
claim states — `ptr::drop_in_place` is skipped on the unwind path. -/
theorem stackalloc_with_iter_unwind_drops_nothing :
    (fill_from_iter 2 [(0 : Nat)]).1.length = 1 ∧
    stackalloc_with_iter 2 [(0 : Nat)]
      (fun _ => (Except.error 0 : Except Nat Nat)) true =
      (Except.error 0, 0) ∧
    (0 : Nat) ≠ 1 :=
  ⟨rfl, rfl, by decide⟩

/-- Claim C2 (amended): on a normal return of the callback the destructor
of a destructible element type runs exactly once per filled slot (`count`
times for `stackalloc_with`, `min m count` times for
`stackalloc_with_iter`); but when the callback (or the fill closure)
unwinds, ZERO destructor invocations occur — the filled slots are leaked,
not destroyed — and the unwind payload propagates to the caller. -/
theorem drops_match_filled_slots_or_leak_on_unwind (n : Nat) (xs : List α)
    (initW : Nat → Except ε α) (cb cb2 : List α → Except ε U) :
    (∀ r, cb ((fill_from_iter n xs).1) = Except.ok r →
        stackalloc_with_iter n xs cb true =
          (Except.ok r, (fill_from_iter n xs).1.length)) ∧
    (∀ e, cb ((fill_from_iter n xs).1) = Except.error e →
        stackalloc_with_iter n xs cb true = (Except.error e, 0)) ∧
    (∀ buf r, fill_with n initW = Except.ok buf → cb2 buf = Except.ok r →
        stackalloc_with n initW cb2 true = (Except.ok r, n)) ∧
    (∀ e, fill_with n initW = Except.error e →
        stackalloc_with n initW cb2 true = (Except.error e, 0)) ∧
    (∀ buf e, fill_with n initW = Except.ok buf →
        cb2 buf = Except.error e →
        stackalloc_with n initW cb2 true = (Except.error e, 0)) := by
  refine ⟨?_, ?_, ?_, ?_, ?_⟩
  · intro r hr
    simp [stackalloc_with_iter, hr]
  · intro e he
    simp [stackalloc_with_iter, he]
  · intro buf r hb hr
    have hlen : buf.length = n := fill_with_go_length initW 0 n buf hb
    simp [stackalloc_with, hb, hr, hlen]
  · intro e he
    simp [stackalloc_with, he]
  · intro buf e hb he
    simp [stackalloc_with, hb, he]

/-- Claim C2 witness: a normal return over one filled slot drops exactly
one element. -/
theorem drops_match_filled_slots_or_leak_on_unwind_witness :
    stackalloc_with_iter 1 [(3 : Nat)]
      (fun l => (Except.ok l.length : Except Unit Nat)) true =
      (Except.ok 1, 1) := by
  have h := (drops_match_filled_slots_or_leak_on_unwind 1 [(3 : Nat)]
    (fun _ => (Except.ok 0 : Except Unit Nat))
    (fun l => (Except.ok l.length : Except Unit Nat))
    (fun l => (Except.ok l.length : Except Unit Nat))).1 1 rfl
  simpa using h

end Stackalloc
